import Mathlib

/-!
# go-validator: rule callbacks, error translation and one-time initialisation

A shallow embedding of `src/validator.go` and `src/regex.go`.

Go strings are modelled as the list of their runes (`Str`).  The external
collaborators (the gorm database handle, the validation engine, the locale
translator, `locales.ToSnakeCase`) are parameters of the definitions that
call them.  Go panics (an index out of range, a reflect call on the wrong
kind) are `none` in an `Option` result.
-/

namespace GoValidator

/-- Go `string`, as the sequence of its runes. -/
abbrev Str := List Char

/-! ## `strings.Contains` and `strings.Split` with a one-rune separator -/

/-- Go `strings.Contains(s, sep)` for a one-rune separator. -/
def stringsContains (s : Str) (sep : Char) : Bool :=
  s.any (fun c => c == sep)

/-- Go `strings.Split(s, sep)` for a one-rune separator: the segments
between consecutive separators, in order; always at least one segment. -/
def stringsSplit : Str → Char → List Str
  | [], _ => [[]]
  | c :: cs, sep =>
    if c == sep then [] :: stringsSplit cs sep
    else
      match stringsSplit cs sep with
      | [] => [[c]]
      | seg :: segs => (c :: seg) :: segs

/-! ## The database handle -/

/-- Errors a gorm query can return; `wrap` is an error that wraps another
one (`fmt.Errorf("...%w", inner)`). -/
inductive GormError where
  | ErrRecordNotFound : GormError
  | other (msg : Str) : GormError
  | wrap (msg : Str) (inner : GormError) : GormError
  deriving DecidableEq, Repr

/-- Go `errors.Is(err, gorm.ErrRecordNotFound)` on a non-nil error: walks
the chain of wrapped errors. -/
def GormError.isRecordNotFound : GormError → Bool
  | .ErrRecordNotFound => true
  | .other _ => false
  | .wrap _ inner => inner.isRecordNotFound

/-- Go `errors.Is(err, gorm.ErrRecordNotFound)`, `none` being the nil error. -/
def errorsIsRecordNotFound : Option GormError → Bool
  | none => false
  | some e => e.isRecordNotFound

/-- What `Table(t).Select(..).Where(..).Find(&count)` leaves behind: the
`.Error` of the chain and the value of the local `count` afterwards. -/
structure QueryResult where
  err : Option GormError
  count : Int
  deriving DecidableEq, Repr

/-- The `*gorm.DB` handle, seen through the one query the rules make:
table, column and value to the outcome of
`SELECT CASE WHEN COUNT(*) > 0 THEN 1 ELSE 0 END ... WHERE column = value`. -/
abbrev Database := Str → Str → Str → QueryResult

/-- A table row: column name to value. -/
abbrev Row := Str → Str

/-- Some row of `rows` has `column` equal to `value`. -/
def rowPresent (rows : List Row) (column value : Str) : Bool :=
  rows.any (fun r => r column == value)

/-! ## Rule parameters of `exists` and `uq` -/

/-- The first lines of `exists` and `unique`: `table = params`,
`column = "id"`, and when `params` contains `";"` the split's segments 0 and
1.  `none` is the index-out-of-range panic of `t[0]` or `t[1]`. -/
def tableColumn (params : Str) : Option (Str × Str) :=
  if stringsContains params ';' then
    let t := stringsSplit params ';'
    match t[0]?, t[1]? with
    | some table, some column => some (table, column)
    | _, _ => none
  else
    some (params, "id".toList)

/-- Method `Validation.exists`: `err == nil && count == 1`. -/
def existsRule (database : Database) (field params : Str) : Option Bool :=
  match tableColumn params with
  | none => none
  | some (table, column) =>
    let r := database table column field
    some (r.err.isNone && r.count == 1)

/-- Method `Validation.unique`:
`errors.Is(err, gorm.ErrRecordNotFound) || count == 0`. -/
def unique (database : Database) (field params : Str) : Option Bool :=
  match tableColumn params with
  | none => none
  | some (table, column) =>
    let r := database table column field
    some (errorsIsRecordNotFound r.err || r.count == 0)

/-- Method `Validation.nullable`: `len(field.String()) >= 0`. -/
def nullable (field : Str) : Bool :=
  decide (field.length ≥ 0)

/-! ## `regex.go`: the mobile pattern -/

/-- The fragment of Go `regexp/syntax` that `^09\d{9}$` parses to (no flags:
`^` is begin-of-text, `$` is end-of-text, `\d` is the class `[0-9]`). -/
inductive Regex where
  | BeginText : Regex
  | EndText : Regex
  | Literal (c : Char) : Regex
  | CharClass (lo hi : Char) : Regex
  | Concat (r₁ r₂ : Regex) : Regex
  | Repeat (sub : Regex) (n : Nat) : Regex
  deriving Repr

/-- The positions at which a match of `r` that starts at position `pos` of
the text `s` can end. -/
def Regex.ends (s : Str) : Regex → Nat → List Nat
  | .BeginText, pos => if pos = 0 then [pos] else []
  | .EndText, pos => if pos = s.length then [pos] else []
  | .Literal c, pos =>
    match s[pos]? with
    | some d => if d = c then [pos + 1] else []
    | none => []
  | .CharClass lo hi, pos =>
    match s[pos]? with
    | some d => if lo.val ≤ d.val ∧ d.val ≤ hi.val then [pos + 1] else []
    | none => []
  | .Concat r₁ r₂, pos => (r₁.ends s pos).flatMap (fun mid => r₂.ends s mid)
  | .Repeat sub n, pos =>
    Nat.iterate (fun starts => starts.flatMap (fun mid => sub.ends s mid)) n [pos]

/-- Go `(*regexp.Regexp).MatchString`: the text contains a match of the
expression, starting at some position. -/
def Regex.MatchString (r : Regex) (s : Str) : Bool :=
  (List.range (s.length + 1)).any (fun start => !(r.ends s start).isEmpty)

/-- The compiled `mobileRegexString = "^09\\d{9}$"`. -/
def mobileRegex : Regex :=
  .Concat .BeginText
    (.Concat (.Literal '0')
      (.Concat (.Literal '9')
        (.Concat (.Repeat (.CharClass '0' '9') 9) .EndText)))

/-- Method `Validation.mobile`: `mobileRegex().MatchString(fl.Field().String())`. -/
def mobile (field : Str) : Bool :=
  mobileRegex.MatchString field

/-! ## `current_password`: reflection on the parent and the registered checker -/

/-- Go `reflect.Kind`. -/
inductive Kind where
  | Invalid | Bool | Int | Int8 | Int16 | Int32 | Int64
  | Uint | Uint8 | Uint16 | Uint32 | Uint64 | Uintptr
  | Float32 | Float64 | Complex64 | Complex128
  | Array | Chan | Func | Interface | Map | Pointer | Slice
  | String | Struct | UnsafePointer
  deriving DecidableEq, Repr

/-- A field as `reflect` hands it back: its name, the kind of its value
and, for the unsigned kinds, the bits of the value. -/
structure StructField where
  name : Str
  kind : Kind
  bits : Nat
  deriving DecidableEq, Repr

/-- The fields of a struct value, in declaration order.  `field` is a field
whose type is not an embedded struct: a named field of any type, or an
embedded type that is neither a struct nor a pointer to one (its name is the
type's name).  `embedded` is an embedded struct `T` (`pointer = false`) or
`*T` (`pointer = true`, `isNil` telling whether the pointer is nil) with the
fields of `T`, its name being `T`.  A struct type that embeds itself through
pointers is written down to the first repetition of a type, the repeated
struct with no fields: `reflect` searches a type once. -/
inductive Fields where
  | nil : Fields
  | field (name : Str) (kind : Kind) (bits : Nat) (rest : Fields) : Fields
  | embedded (name : Str) (pointer isNil : Bool) (inner rest : Fields) : Fields
  deriving DecidableEq, Repr

/-- The `reflect.Value` that `fl.Parent()` returns: a struct with its
fields, or a value of another kind. -/
inductive Parent where
  | struct (fields : Fields) : Parent
  | nonStruct (kind : Kind) : Parent
  deriving DecidableEq, Repr

/-- The fields named `name` that lie `depth` embeddings below the struct
(`depth = 0`: its own fields), in the order the field search of `reflect`
meets them.  An entry is `some f` when the field can be read and `none` when
an embedded pointer on the way to it is nil; `reachable` says whether the
struct itself can be read.  As in `reflect`, an embedded struct whose own
name matches is a match and is not searched further, and a struct type
reached along two ways gives its fields twice. -/
def Fields.matchesAt (name : Str) : Fields → Nat → Bool → List (Option StructField)
  | .nil, _, _ => []
  | .field n kind bits rest, depth, reachable =>
    (if depth = 0 ∧ n = name then
        [if reachable then some { name := n, kind := kind, bits := bits } else none]
      else [])
      ++ rest.matchesAt name depth reachable
  | .embedded n pointer isNil inner rest, depth, reachable =>
    (match depth with
      | 0 =>
        if n = name then
          [if reachable then
              some { name := n, kind := if pointer then Kind.Pointer else Kind.Struct,
                     bits := 0 }
            else none]
        else []
      | d + 1 =>
        if n = name then []
        else inner.matchesAt name d (reachable && !(pointer && isNil)))
      ++ rest.matchesAt name depth reachable

/-- The number of embedding levels below a struct. -/
def Fields.depth : Fields → Nat
  | .nil => 0
  | .field _ _ _ rest => rest.depth
  | .embedded _ _ _ inner rest => max (inner.depth + 1) rest.depth

/-- The level loop of the field search, from level `depth` on, for at most
`levels` levels: the first level that holds a field named `name` decides.
One match there is the field (`none`, a panic, when a nil embedded pointer
lies on the way to it: `FieldByIndex`); two or more matches hide each other
and give the zero Value (`some none`), as does a search that finds nothing. -/
def Fields.search (name : Str) (fields : Fields) : Nat → Nat → Option (Option StructField)
  | 0, _ => some none
  | levels + 1, depth =>
    match fields.matchesAt name depth true with
    | [] => fields.search name levels (depth + 1)
    | [found] =>
      match found with
      | some f => some (some f)
      | none => none
    | _ :: _ :: _ => some none

/-- Go `reflect.Value.FieldByName`: `none` is a panic (the value is not a
struct, or the field lies behind a nil embedded pointer); `some none` is the
zero Value (no such field, or an ambiguous one); `some (some f)` is the field
found, a declared one or one promoted from an embedded struct. -/
def Parent.FieldByName (parent : Parent) (name : Str) : Option (Option StructField) :=
  match parent with
  | .struct fields => fields.search name (fields.depth + 1) 0
  | .nonStruct _ => none

/-- Go `reflect.Value.Uint`: the value as a `uint64`; `none` is the panic
on a kind that is not unsigned. -/
def StructField.Uint (f : StructField) : Option Nat :=
  match f.kind with
  | .Uint | .Uint8 | .Uint16 | .Uint32 | .Uint64 | .Uintptr => some (f.bits % 2 ^ 64)
  | _ => none

/-- Type `CurrentPasswordChecker`: `func(userID uint64, password string) bool`. -/
abbrev CurrentPasswordChecker := Nat → Str → Bool

/-- The package-level variables: `currentPasswordChecker` (`none` is nil)
and the state of `once`. -/
structure Globals where
  currentPasswordChecker : Option CurrentPasswordChecker
  onceDone : Bool

/-- The package state when the process starts. -/
def Globals.initial : Globals :=
  { currentPasswordChecker := none, onceDone := false }

/-- Method `Validation.RegisterAppDependencies`. -/
def RegisterAppDependencies (checker : Option CurrentPasswordChecker) (g : Globals) : Globals :=
  { g with currentPasswordChecker := checker }

/-- What a call of `currentPassword` did: the boolean returned and the
calls it made to the registered checker, in order. -/
structure RuleOutcome where
  ret : Bool
  checkerCalls : List (Nat × Str)
  deriving DecidableEq, Repr

/-- Method `Validation.currentPassword`; `none` is a reflect panic. -/
def currentPassword (g : Globals) (password : Str) (parent : Parent) : Option RuleOutcome :=
  match g.currentPasswordChecker with
  | none => some { ret := false, checkerCalls := [] }
  | some checker =>
    match parent.FieldByName "UserID".toList with
    | none => none
    | some userIDField =>
      match userIDField with
      | none => some { ret := false, checkerCalls := [] }
      | some f =>
        if f.kind ≠ Kind.Uint then some { ret := false, checkerCalls := [] }
        else
          match f.Uint with
          | none => none
          | some userID =>
            some { ret := checker userID password, checkerCalls := [(userID, password)] }

/-! ## `checkError`, `Validate`, `VarValidate` -/

/-- A `validator.FieldError`: one failed rule on one field.  `field` is
what `fe.Field()` returns; `tag` and `param` identify the rule. -/
structure FieldError where
  field : Str
  tag : Str
  param : Str
  deriving DecidableEq, Repr

/-- The `error` values handed to `checkError`: the engine's
`*InvalidValidationError`, its `ValidationErrors` (a slice of field errors,
in the order reported), or an error of another type. -/
inductive EngineError where
  | InvalidValidationError : EngineError
  | ValidationErrors (errs : List FieldError) : EngineError
  | other (msg : Str) : EngineError
  deriving DecidableEq, Repr

/-- Go `map[string][]string`, as an association list without repeated keys. -/
abbrev StrMap := List (Str × List Str)

/-- Go `m[key]` on a `map[string][]string`: the nil slice when the key is absent. -/
def mapGet : StrMap → Str → List Str
  | [], _ => []
  | (k, v) :: rest, key => if k = key then v else mapGet rest key

/-- Go `m[key] = value`. -/
def mapSet : StrMap → Str → List Str → StrMap
  | [], key, value => [(key, value)]
  | (k, v) :: rest, key, value =>
    if k = key then (k, value) :: rest else (k, v) :: mapSet rest key value

/-- The keys of a map. -/
def mapKeys (m : StrMap) : List Str :=
  m.map Prod.fst

/-- The loop of `checkError` over `errs`, from the map `translated`:
`translated[field] = append(translated[field], fe.Translate(v.trans))` with
`field := locales.ToSnakeCase(fe.Field())`. -/
def translateLoop (toSnakeCase : Str → Str) (translate : FieldError → Str) :
    List FieldError → StrMap → StrMap
  | [], translated => translated
  | fe :: errs, translated =>
    let field := toSnakeCase fe.field
    translateLoop toSnakeCase translate errs
      (mapSet translated field (mapGet translated field ++ [translate fe]))

/-- Go `errors.As(e, &errs)` into a nil `ValidationErrors`: the slice of
field errors, nil when `e` is of another type. -/
def asValidationErrors : EngineError → List FieldError
  | .ValidationErrors errs => errs
  | _ => []

/-- Byte-wise `a < b` on strings, the order in which `encoding/json`
writes the keys of a map. -/
def strLess : Str → Str → Bool
  | [], [] => false
  | [], _ :: _ => true
  | _ :: _, [] => false
  | a :: as, b :: bs => decide (a.val < b.val) || (a == b && strLess as bs)

/-- Insert an entry into a list of entries sorted by key. -/
def insertByKey (e : Str × List Str) : StrMap → StrMap
  | [] => [e]
  | x :: xs => if strLess x.1 e.1 then x :: insertByKey e xs else e :: x :: xs

/-- The entries of a map sorted by key. -/
def sortByKey : StrMap → StrMap
  | [] => []
  | e :: es => insertByKey e (sortByKey es)

/-- Join the pieces with `sep` between them. -/
def joinWith (sep : Str) : List Str → Str
  | [] => []
  | [x] => x
  | x :: y :: rest => x ++ sep ++ joinWith sep (y :: rest)

/-- Go `json.Marshal` of a non-nil `map[string][]string` whose slices are
non-nil: `{"k1":["m1","m2"],"k2":[...]}` with the keys sorted.
`jsonString` is the encoding of one Go string (quotes and escapes). -/
def jsonMarshal (jsonString : Str → Str) (m : StrMap) : Str :=
  "\x7b".toList
    ++ joinWith ",".toList
        ((sortByKey m).map (fun e =>
          jsonString e.1 ++ ":[".toList
            ++ joinWith ",".toList (e.2.map jsonString) ++ "]".toList))
    ++ "\x7d".toList

/-- The text of the error returned for an `InvalidValidationError`. -/
def genericMessage : Str :=
  "something went wrong. Please try again later".toList

/-- Method `Validation.checkError`: `none` is the nil error, `some msg` is
`errors.New(msg)`.  `toSnakeCase` is `locales.ToSnakeCase`, `translate` is
`fe.Translate(v.trans)`. -/
def checkError (toSnakeCase : Str → Str) (translate : FieldError → Str)
    (jsonString : Str → Str) (e : Option EngineError) : Option Str :=
  match e with
  | some err =>
    match err with
    | .InvalidValidationError => some genericMessage
    | _ =>
      let errs := asValidationErrors err
      let translated := translateLoop toSnakeCase translate errs []
      some (jsonMarshal jsonString translated)
  | none => none

/-- Method `Validation.Validate`: `structEngine` is `v.validator.Struct`. -/
def Validate {σ : Type} (structEngine : σ → Option EngineError)
    (toSnakeCase : Str → Str) (translate : FieldError → Str)
    (jsonString : Str → Str) (s : σ) : Option Str :=
  let e := structEngine s
  checkError toSnakeCase translate jsonString e

/-- Method `Validation.VarValidate`: `varEngine` is `v.validator.Var`. -/
def VarValidate (varEngine : Str → Str → Option EngineError)
    (toSnakeCase : Str → Str) (translate : FieldError → Str)
    (jsonString : Str → Str) (value rule : Str) : Option Str :=
  let err := varEngine value rule
  checkError toSnakeCase translate jsonString err

/-! ## `Init` -/

/-- The `Validation` struct, by the database handle it holds (the engine
and the translator are external). -/
structure Validation (DB : Type) where
  database : DB
  deriving DecidableEq, Repr

/-- The registration calls of the initialisation body: the error (or nil)
of `RegisterValidation(tag, fn)` per tag and of
`locales.RegisterDefaultTranslations`. -/
structure Registrar where
  RegisterValidation : Str → Option Str
  RegisterDefaultTranslations : Option Str

/-- The registrations inside `once.Do`, in source order, stopping at the
first error: the value of `err` when the body returns. -/
def initBody (reg : Registrar) : Option Str :=
  match reg.RegisterValidation "exists".toList with
  | some err => some err
  | none =>
  match reg.RegisterValidation "nullable".toList with
  | some err => some err
  | none =>
  match reg.RegisterValidation "uq".toList with
  | some err => some err
  | none =>
  match reg.RegisterValidation "current_password".toList with
  | some err => some err
  | none =>
  match reg.RegisterValidation "mobile".toList with
  | some err => some err
  | none => reg.RegisterDefaultTranslations

/-- What one call of `Init` returns, and whether it ran the body. -/
structure InitResult (DB : Type) where
  v : Option (Validation DB)
  err : Option Str
  ranBody : Bool
  deriving DecidableEq, Repr

/-- Function `Init`: `once.Do` runs the body only while `once` is not done and marks
it done; the named results `v`, `err` start nil. -/
def Init {DB : Type} (reg : Registrar) (db : DB) (g : Globals) : InitResult DB × Globals :=
  if g.onceDone then
    ({ v := none, err := none, ranBody := false }, g)
  else
    let g1 := { g with onceDone := true }
    let v : Option (Validation DB) := some { database := db }
    let err := initBody reg
    if err ≠ none then ({ v := none, err := err, ranBody := true }, g1)
    else ({ v := v, err := none, ranBody := true }, g1)

/-- A sequence of `Init` calls, one per database handle, threading the
package state. -/
def initCalls {DB : Type} (reg : Registrar) : List DB → Globals → List (InitResult DB)
  | [], _ => []
  | db :: dbs, g => (Init reg db g).1 :: initCalls reg dbs (Init reg db g).2

/-- The rune `d` lies in the class `[lo-hi]`. -/
def inClass (lo hi d : Char) : Prop := lo.val ≤ d.val ∧ d.val ≤ hi.val

/-- The number of messages held in a map. -/
def messageCount (m : StrMap) : Nat :=
  (m.map (fun kv => kv.2.length)).sum

/-! ## Sample inputs -/

/-- A database holding one `users` row with `email = "a@b.c"`; every query succeeds. -/
def seededDatabase : Database := fun table column value =>
  if table = "users".toList ∧ column = "email".toList ∧ value = "a@b.c".toList then
    { err := none, count := 1 }
  else { err := none, count := 0 }

/-- The rows of the `users` table of `seededDatabase`. -/
def seededRows : List Row :=
  [fun column => if column = "email".toList then "a@b.c".toList else []]

/-- A database whose every query fails with a connection error, the
count left at 1. -/
def failingDatabase : Database := fun _ _ _ =>
  { err := some (GormError.other "connection refused".toList), count := 1 }

/-- A database that cannot be reached: every query fails with a connection
error and scans nothing, so the count keeps its initial 0. -/
def unreachableDatabase : Database := fun _ _ _ =>
  { err := some (GormError.other "connection refused".toList), count := 0 }

/-- A checker that accepts user 42 with the password `secret`. -/
def sampleChecker : CurrentPasswordChecker := fun userID password =>
  userID == 42 && password == "secret".toList

/-- A parent `struct { Name string; UserID uint }` with `UserID = 42`. -/
def parentDeclared : Fields :=
  .field "Name".toList Kind.String 0 (.field "UserID".toList Kind.Uint 42 .nil)

/-- A parent `struct { Base; Password string }` that embeds
`Base struct { UserID uint }` with `UserID = 42`. -/
def parentPromoted : Fields :=
  .embedded "Base".toList false false (.field "UserID".toList Kind.Uint 42 .nil)
    (.field "Password".toList Kind.String 0 .nil)

/-- A parent `struct { UserID uint64 }`. -/
def parentUint64 : Fields :=
  .field "UserID".toList Kind.Uint64 42 .nil

/-- A parent `struct { Name string; Base }` whose embedded
`Base struct { ID uint }` has no `UserID` either. -/
def parentWithout : Fields :=
  .field "Name".toList Kind.String 0
    (.embedded "Base".toList false false (.field "ID".toList Kind.Uint 42 .nil) .nil)

/-- A parent `struct { Left; Right }` whose two embedded structs both
declare `UserID uint`. -/
def parentAmbiguous : Fields :=
  .embedded "Left".toList false false (.field "UserID".toList Kind.Uint 42 .nil)
    (.embedded "Right".toList false false (.field "UserID".toList Kind.Uint 43 .nil) .nil)

/-- A parent `struct { *Base }` whose embedded pointer to
`Base struct { UserID uint }` is nil. -/
def parentBehindNil : Fields :=
  .embedded "Base".toList true true (.field "UserID".toList Kind.Uint 0 .nil) .nil

/-- A sample `locales.ToSnakeCase`, on the two field names of the samples. -/
def sampleSnakeCase : Str → Str := fun name =>
  if name = "UserID".toList then "user_id".toList
  else if name = "Email".toList then "email".toList
  else name

/-- A sample translation: the field name, a blank and the failed tag. -/
def sampleTranslate : FieldError → Str := fun fe =>
  fe.field ++ " ".toList ++ fe.tag

/-- A sample string encoder: the string between double quotes (right for
strings that need no escape). -/
def sampleJsonString : Str → Str := fun str =>
  [Char.ofNat 34] ++ str ++ [Char.ofNat 34]

/-- Three failures on two fields, as the engine reports them. -/
def sampleFailures : List FieldError :=
  [ { field := "UserID".toList, tag := "required".toList, param := [] },
    { field := "Email".toList, tag := "email".toList, param := [] },
    { field := "UserID".toList, tag := "min".toList, param := "3".toList } ]

/-! ## Theorems -/

theorem stringsSplit_ne_nil (s : Str) (sep : Char) : stringsSplit s sep ≠ [] := by
  induction s with
  | nil => simp [stringsSplit]
  | cons c cs ih =>
    unfold stringsSplit
    split
    · simp
    · split <;> simp

theorem stringsSplit_head (s : Str) (sep : Char) :
    (stringsSplit s sep)[0]? = some (s.takeWhile (fun c => c != sep)) := by
  induction s with
  | nil => simp [stringsSplit]
  | cons c cs ih =>
    unfold stringsSplit
    by_cases h : c = sep
    · simp [h]
    · have hne := stringsSplit_ne_nil cs sep
      cases hs : stringsSplit cs sep with
      | nil => exact absurd hs hne
      | cons seg segs =>
        rw [hs] at ih
        simp at ih
        simp [h, List.takeWhile_cons, ih]

theorem stringsSplit_first (pre rest : Str) (sep : Char) (hpre : sep ∉ pre) :
    stringsSplit (pre ++ sep :: rest) sep = pre :: stringsSplit rest sep := by
  induction pre with
  | nil => simp [stringsSplit]
  | cons c cs ih =>
    simp at hpre
    have hc : ¬ c = sep := fun h => hpre.1 h.symm
    simp [stringsSplit, hc, ih hpre.2]

theorem stringsContains_decompose (s : Str) (sep : Char) (h : stringsContains s sep = true) :
    ∃ pre rest, s = pre ++ sep :: rest ∧ sep ∉ pre := by
  induction s with
  | nil => simp [stringsContains] at h
  | cons c cs ih =>
    by_cases hc : c = sep
    · exact ⟨[], cs, by simp [hc], by simp⟩
    · have h2 : stringsContains cs sep = true := by
        simpa [stringsContains, hc] using h
      obtain ⟨pre, rest, hs, hpre⟩ := ih h2
      refine ⟨c :: pre, rest, by simp [hs], ?_⟩
      simp [hpre]
      exact fun h => hc h.symm

theorem tableColumn_of_contains (pre rest : Str) (hpre : ';' ∉ pre) :
    tableColumn (pre ++ ';' :: rest) =
      some (pre, rest.takeWhile (fun c => c != ';')) := by
  have hc : stringsContains (pre ++ ';' :: rest) ';' = true := by
    simp [stringsContains]
  have hh := stringsSplit_head rest ';'
  have hne := stringsSplit_ne_nil rest ';'
  cases hs : stringsSplit rest ';' with
  | nil => exact absurd hs hne
  | cons seg segs =>
    rw [hs] at hh
    simp at hh
    simp [tableColumn, hc, stringsSplit_first pre rest ';' hpre, hs, hh]

/-- C10: a parameter without ";" gives the whole parameter as table and "id"
as column; a parameter with ";" splits into at least two segments, the table is
the text before the first ";" and the column (segment 1) is the text between
the first and the second ";" or to the end; in every case the segment reads
succeed, and `exists` and `unique` query that table and column. -/
theorem tableColumn_spec (params : Str) :
    (stringsContains params ';' = false →
        tableColumn params = some (params, "id".toList)) ∧
    (stringsContains params ';' = true →
        2 ≤ (stringsSplit params ';').length ∧
        ∃ table rest, params = table ++ ';' :: rest ∧ ';' ∉ table ∧
          (stringsSplit params ';')[1]? = some (rest.takeWhile (fun c => c != ';')) ∧
          tableColumn params = some (table, rest.takeWhile (fun c => c != ';'))) ∧
    (∀ (database : Database) (field : Str), ∃ table column,
        tableColumn params = some (table, column) ∧
        existsRule database field params =
          some ((database table column field).err.isNone
                && (database table column field).count == 1) ∧
        unique database field params =
          some (errorsIsRecordNotFound (database table column field).err
                || (database table column field).count == 0)) := by
  have key : ∃ table column, tableColumn params = some (table, column) := by
    cases hc : stringsContains params ';' with
    | false => exact ⟨params, "id".toList, by simp [tableColumn, hc]⟩
    | true =>
      obtain ⟨pre, rest, hs, hpre⟩ := stringsContains_decompose params ';' hc
      exact ⟨_, _, hs ▸ tableColumn_of_contains pre rest hpre⟩
  refine ⟨?_, ?_, ?_⟩
  · intro h
    simp [tableColumn, h]
  · intro h
    obtain ⟨pre, rest, hs, hpre⟩ := stringsContains_decompose params ';' h
    subst hs
    have hne := stringsSplit_ne_nil rest ';'
    have hh := stringsSplit_head rest ';'
    refine ⟨?_, pre, rest, rfl, hpre, ?_, tableColumn_of_contains pre rest hpre⟩
    · rw [stringsSplit_first pre rest ';' hpre]
      cases hs : stringsSplit rest ';' with
      | nil => exact absurd hs hne
      | cons seg segs => simp
    · rw [stringsSplit_first pre rest ';' hpre]
      simpa using hh
  · intro database field
    obtain ⟨table, column, htc⟩ := key
    exact ⟨table, column, htc, by simp [existsRule, htc], by simp [unique, htc]⟩

theorem tableColumn_spec_witness :
    stringsContains "users;email;x".toList ';' = true ∧
    (2 ≤ (stringsSplit "users;email;x".toList ';').length ∧
      ∃ table rest, "users;email;x".toList = table ++ ';' :: rest ∧ ';' ∉ table ∧
        (stringsSplit "users;email;x".toList ';')[1]?
          = some (rest.takeWhile (fun c => c != ';')) ∧
        tableColumn "users;email;x".toList
          = some (table, rest.takeWhile (fun c => c != ';'))) ∧
    tableColumn "users;email;x".toList = some ("users".toList, "email".toList) ∧
    stringsContains "users".toList ';' = false ∧
    tableColumn "users".toList = some ("users".toList, "id".toList) :=
  ⟨by decide, (tableColumn_spec "users;email;x".toList).2.1 (by decide), by decide,
   by decide, (tableColumn_spec "users".toList).1 (by decide)⟩

/-- C2: when the query made for the parsed table and column succeeds (nil
error) and yields 1 if some row has the column equal to the field value and 0
otherwise, `exists` returns true exactly when such a row is present, `unique`
returns true exactly when none is, and `unique` is the negation of `exists`. -/
theorem exists_unique_on_success (database : Database) (field params table column : Str)
    (rows : List Row)
    (hparams : tableColumn params = some (table, column))
    (herr : (database table column field).err = none)
    (hcount : (database table column field).count
      = if rowPresent rows column field then 1 else 0) :
    existsRule database field params = some (rowPresent rows column field) ∧
    unique database field params = some (!rowPresent rows column field) ∧
    unique database field params = (existsRule database field params).map (fun b => !b) := by
  cases hp : rowPresent rows column field <;>
    simp [existsRule, unique, hparams, herr, hcount, hp, errorsIsRecordNotFound]

theorem exists_unique_on_success_witness :
    existsRule seededDatabase "a@b.c".toList "users;email".toList
        = some (rowPresent seededRows "email".toList "a@b.c".toList) ∧
    unique seededDatabase "a@b.c".toList "users;email".toList
        = some (!rowPresent seededRows "email".toList "a@b.c".toList) ∧
    unique seededDatabase "a@b.c".toList "users;email".toList
        = (existsRule seededDatabase "a@b.c".toList "users;email".toList).map (fun b => !b) :=
  exists_unique_on_success seededDatabase "a@b.c".toList "users;email".toList
    "users".toList "email".toList seededRows (by decide) (by decide) (by decide)

/-- C3: when the query made by `exists` returns an error, `exists` returns
false, whatever count the query left behind. -/
theorem exists_false_on_error (database : Database) (field params table column : Str)
    (e : GormError)
    (hparams : tableColumn params = some (table, column))
    (herr : (database table column field).err = some e) :
    existsRule database field params = some false := by
  simp [existsRule, hparams, herr]

theorem exists_false_on_error_witness :
    existsRule failingDatabase "7".toList "users".toList = some false :=
  exists_false_on_error failingDatabase "7".toList "users".toList "users".toList "id".toList
    (GormError.other "connection refused".toList) (by decide) (by decide)

/-- C4: the claim (an error from the query makes `unique` return false) is
what the spec and the sibling `exists` say, and the code misses it: on a
database that cannot be reached the query returns a connection error and
leaves the count at its initial 0, and `unique` returns true (the rule
passes) where `exists` on the same query returns false. -/
theorem unique_passes_on_query_error :
    (unreachableDatabase "users".toList "id".toList "7".toList).err
      = some (GormError.other "connection refused".toList) ∧
    (unreachableDatabase "users".toList "id".toList "7".toList).count = 0 ∧
    tableColumn "users".toList = some ("users".toList, "id".toList) ∧
    unique unreachableDatabase "7".toList "users".toList = some true ∧
    existsRule unreachableDatabase "7".toList "users".toList = some false := by
  decide

/-- On an error other than `gorm.ErrRecordNotFound` that leaves the count at
0, `unique` returns `count == 0`, that is true: the error itself is not tested,
unlike in `exists`. -/
theorem unique_true_on_other_error_zero_count (database : Database)
    (field params table column msg : Str)
    (hparams : tableColumn params = some (table, column))
    (hres : database table column field
      = { err := some (GormError.other msg), count := 0 }) :
    unique database field params = some true ∧
    existsRule database field params = some false := by
  simp [unique, existsRule, hparams, hres, errorsIsRecordNotFound,
    GormError.isRecordNotFound]

/-- C5: with no checker registered (the package variable is nil, also right
after `RegisterAppDependencies(nil)` and at process start), `current_password`
returns false for every field value and every parent, makes no call to a
checker, and does not panic even on a parent that is not a struct (it never
looks the field up). -/
theorem currentPassword_no_checker (g : Globals) (password : Str) (parent : Parent) :
    (g.currentPasswordChecker.isNone = true →
      currentPassword g password parent = some { ret := false, checkerCalls := [] }) ∧
    currentPassword (RegisterAppDependencies none g) password parent
      = some { ret := false, checkerCalls := [] } ∧
    currentPassword Globals.initial password parent
      = some { ret := false, checkerCalls := [] } := by
  refine ⟨?_, ?_, ?_⟩
  · intro h
    cases hc : g.currentPasswordChecker with
    | none => simp [currentPassword, hc]
    | some c => simp [hc] at h
  · simp [currentPassword, RegisterAppDependencies]
  · simp [currentPassword, Globals.initial]

theorem currentPassword_no_checker_witness :
    currentPassword { currentPasswordChecker := none, onceDone := true } "secret".toList
      (Parent.nonStruct Kind.String) = some { ret := false, checkerCalls := [] } :=
  (currentPassword_no_checker { currentPasswordChecker := none, onceDone := true }
    "secret".toList (Parent.nonStruct Kind.String)).1 rfl

theorem matchesAt_beyond_depth (name : Str) (fields : Fields) (d : Nat) (r : Bool)
    (h : fields.depth < d) : fields.matchesAt name d r = [] := by
  induction fields generalizing d r with
  | nil => simp [Fields.matchesAt]
  | field n kind bits rest ih =>
    simp only [Fields.depth] at h
    have hd : d ≠ 0 := by omega
    simp [Fields.matchesAt, hd, ih d r h]
  | embedded n pointer isNil inner rest ihInner ihRest =>
    simp only [Fields.depth] at h
    have hrest : rest.depth < d := by omega
    cases d with
    | zero => omega
    | succ d =>
      have hinner : inner.depth < d := by omega
      simp [Fields.matchesAt, ihRest (d + 1) r hrest, ihInner d _ hinner]

theorem search_skip (name : Str) (fields : Fields) (n : Nat) :
    ∀ levels d0, (∀ k, k < n → fields.matchesAt name (d0 + k) true = []) →
      fields.search name (levels + n) d0 = fields.search name levels (d0 + n) := by
  induction n with
  | zero => intro levels d0 _; rfl
  | succ n ih =>
    intro levels d0 h
    have h0 : fields.matchesAt name d0 true = [] := by simpa using h 0 (by omega)
    have hstep : fields.search name (levels + n + 1) d0
        = fields.search name (levels + n) (d0 + 1) := by
      simp [Fields.search, h0]
    rw [show levels + (n + 1) = levels + n + 1 by omega, hstep,
      ih levels (d0 + 1) (fun k hk => by
        have := h (k + 1) (by omega)
        rwa [show d0 + (k + 1) = d0 + 1 + k by omega] at this)]
    congr 1
    omega

theorem search_nothing (name : Str) (fields : Fields)
    (h : ∀ d, fields.matchesAt name d true = []) :
    ∀ levels d0, fields.search name levels d0 = some none := by
  intro levels
  induction levels with
  | zero => intro d0; rfl
  | succ levels ih =>
    intro d0
    simp [Fields.search, h d0, ih (d0 + 1)]

/-- The field search is decided by the shallowest level that holds a field
of that name. -/
theorem FieldByName_shallowest (name : Str) (fields : Fields) (d : Nat)
    (hskip : ∀ k, k < d → fields.matchesAt name k true = [])
    (hne : fields.matchesAt name d true ≠ []) :
    (Parent.struct fields).FieldByName name = fields.search name (fields.depth - d + 1) d := by
  have hd : d ≤ fields.depth := by
    by_contra hlt
    exact hne (matchesAt_beyond_depth name fields d true (by omega))
  have := search_skip name fields d (fields.depth - d + 1) 0
    (fun k hk => by simpa using hskip k hk)
  simp only [Parent.FieldByName]
  rw [show fields.depth + 1 = fields.depth - d + 1 + d by omega, this]
  simp

theorem FieldByName_found (name : Str) (fields : Fields) (d : Nat) (f : StructField)
    (hskip : ∀ k, k < d → fields.matchesAt name k true = [])
    (hone : fields.matchesAt name d true = [some f]) :
    (Parent.struct fields).FieldByName name = some (some f) := by
  rw [FieldByName_shallowest name fields d hskip (by simp [hone])]
  simp [Fields.search, hone]

theorem FieldByName_behind_nil (name : Str) (fields : Fields) (d : Nat)
    (hskip : ∀ k, k < d → fields.matchesAt name k true = [])
    (hone : fields.matchesAt name d true = [none]) :
    (Parent.struct fields).FieldByName name = none := by
  rw [FieldByName_shallowest name fields d hskip (by simp [hone])]
  simp [Fields.search, hone]

theorem FieldByName_ambiguous (name : Str) (fields : Fields) (d : Nat)
    (hskip : ∀ k, k < d → fields.matchesAt name k true = [])
    (htwo : 2 ≤ (fields.matchesAt name d true).length) :
    (Parent.struct fields).FieldByName name = some none := by
  have hne : fields.matchesAt name d true ≠ [] := by
    intro h; rw [h] at htwo; simp at htwo
  rw [FieldByName_shallowest name fields d hskip hne]
  match hm : fields.matchesAt name d true, htwo with
  | a :: b :: rest, _ => simp [Fields.search, hm]

theorem FieldByName_nothing (name : Str) (fields : Fields)
    (h : ∀ d, fields.matchesAt name d true = []) :
    (Parent.struct fields).FieldByName name = some none := by
  simp only [Parent.FieldByName]
  exact search_nothing name fields h _ _

theorem matchesAt_nowhere (name : Str) (fields : Fields)
    (h : ∀ d, d ≤ fields.depth → fields.matchesAt name d true = []) :
    ∀ d, fields.matchesAt name d true = [] := by
  intro d
  by_cases hd : d ≤ fields.depth
  · exact h d hd
  · exact matchesAt_beyond_depth name fields d true (by omega)

theorem currentPassword_of_lookup (g : Globals) (checker : CurrentPasswordChecker)
    (p : Str) (parent : Parent) :
    currentPassword (RegisterAppDependencies (some checker) g) p parent
      = match parent.FieldByName "UserID".toList with
        | none => none
        | some none => some { ret := false, checkerCalls := [] }
        | some (some f) =>
          if f.kind = Kind.Uint then
            some { ret := checker (f.bits % 2 ^ 64) p,
                   checkerCalls := [(f.bits % 2 ^ 64, p)] }
          else some { ret := false, checkerCalls := [] } := by
  simp only [currentPassword, RegisterAppDependencies]
  cases hl : parent.FieldByName "UserID".toList with
  | none => rfl
  | some found =>
    cases found with
    | none => rfl
    | some f =>
      by_cases hk : f.kind = Kind.Uint
      · simp [hk, StructField.Uint]
      · simp [hk]

/-- C6: after `RegisterAppDependencies(checker)` with a non-nil checker and a
struct parent, where "the parent has a field named UserID" is Go's field
selection (the one field of that name at the shallowest level of embedding
that has any, a declared field or one promoted from an embedded struct): a
`UserID` field of kind `uint` makes the rule return `checker(UserID, p)`
through exactly one call of the checker; a `UserID` field of any other kind
(`uint64` included) makes it return false without a call; and so does a
parent with no `UserID` field, be it that no level holds the name or that the
shallowest level holds it more than once. -/
theorem currentPassword_with_checker (g : Globals) (checker : CurrentPasswordChecker)
    (p : Str) (fields : Fields) :
    (∀ d f, (∀ k, k < d → fields.matchesAt "UserID".toList k true = []) →
      fields.matchesAt "UserID".toList d true = [some f] → f.kind = Kind.Uint →
      currentPassword (RegisterAppDependencies (some checker) g) p (Parent.struct fields)
        = some { ret := checker (f.bits % 2 ^ 64) p,
                 checkerCalls := [(f.bits % 2 ^ 64, p)] }) ∧
    (∀ d f, (∀ k, k < d → fields.matchesAt "UserID".toList k true = []) →
      fields.matchesAt "UserID".toList d true = [some f] → f.kind ≠ Kind.Uint →
      currentPassword (RegisterAppDependencies (some checker) g) p (Parent.struct fields)
        = some { ret := false, checkerCalls := [] }) ∧
    ((∀ d, fields.matchesAt "UserID".toList d true = []) →
      currentPassword (RegisterAppDependencies (some checker) g) p (Parent.struct fields)
        = some { ret := false, checkerCalls := [] }) ∧
    (∀ d, (∀ k, k < d → fields.matchesAt "UserID".toList k true = []) →
      2 ≤ (fields.matchesAt "UserID".toList d true).length →
      currentPassword (RegisterAppDependencies (some checker) g) p (Parent.struct fields)
        = some { ret := false, checkerCalls := [] }) := by
  refine ⟨?_, ?_, ?_, ?_⟩
  · intro d f hskip hone hk
    rw [currentPassword_of_lookup, FieldByName_found _ fields d f hskip hone]
    simp [hk]
  · intro d f hskip hone hk
    rw [currentPassword_of_lookup, FieldByName_found _ fields d f hskip hone]
    simp [hk]
  · intro h
    rw [currentPassword_of_lookup, FieldByName_nothing _ fields h]
  · intro d hskip htwo
    rw [currentPassword_of_lookup, FieldByName_ambiguous _ fields d hskip htwo]

theorem currentPassword_with_checker_witness :
    currentPassword (RegisterAppDependencies (some sampleChecker) Globals.initial)
        "secret".toList (Parent.struct parentDeclared)
      = some { ret := sampleChecker (42 % 2 ^ 64) "secret".toList,
               checkerCalls := [(42 % 2 ^ 64, "secret".toList)] } ∧
    currentPassword (RegisterAppDependencies (some sampleChecker) Globals.initial)
        "secret".toList (Parent.struct parentPromoted)
      = some { ret := sampleChecker (42 % 2 ^ 64) "secret".toList,
               checkerCalls := [(42 % 2 ^ 64, "secret".toList)] } ∧
    sampleChecker (42 % 2 ^ 64) "secret".toList = true ∧
    currentPassword (RegisterAppDependencies (some sampleChecker) Globals.initial)
        "secret".toList (Parent.struct parentUint64)
      = some { ret := false, checkerCalls := [] } ∧
    currentPassword (RegisterAppDependencies (some sampleChecker) Globals.initial)
        "secret".toList (Parent.struct parentWithout)
      = some { ret := false, checkerCalls := [] } ∧
    currentPassword (RegisterAppDependencies (some sampleChecker) Globals.initial)
        "secret".toList (Parent.struct parentAmbiguous)
      = some { ret := false, checkerCalls := [] } :=
  ⟨(currentPassword_with_checker Globals.initial sampleChecker "secret".toList
      parentDeclared).1 0 ⟨"UserID".toList, Kind.Uint, 42⟩ (by decide) (by decide) rfl,
   (currentPassword_with_checker Globals.initial sampleChecker "secret".toList
      parentPromoted).1 1 ⟨"UserID".toList, Kind.Uint, 42⟩ (by decide) (by decide) rfl,
   by decide,
   (currentPassword_with_checker Globals.initial sampleChecker "secret".toList
      parentUint64).2.1 0 ⟨"UserID".toList, Kind.Uint64, 42⟩ (by decide) (by decide)
      (by decide),
   (currentPassword_with_checker Globals.initial sampleChecker "secret".toList
      parentWithout).2.2.1
      (matchesAt_nowhere "UserID".toList parentWithout (by decide)),
   (currentPassword_with_checker Globals.initial sampleChecker "secret".toList
      parentAmbiguous).2.2.2 1 (by decide) (by decide)⟩

/-- When the one `UserID` field at the shallowest level lies behind a nil
embedded pointer, the lookup panics and so does the rule: no `UserID` value
exists to pass to the checker. -/
theorem currentPassword_panics_behind_nil (g : Globals) (checker : CurrentPasswordChecker)
    (p : Str) (fields : Fields) (d : Nat)
    (hskip : ∀ k, k < d → fields.matchesAt "UserID".toList k true = [])
    (hone : fields.matchesAt "UserID".toList d true = [none]) :
    currentPassword (RegisterAppDependencies (some checker) g) p (Parent.struct fields)
      = none := by
  rw [currentPassword_of_lookup, FieldByName_behind_nil _ fields d hskip hone]

/-- The rule on the sample parents, evaluated: the declared and the promoted
`UserID` reach the checker, the nil embedded pointer panics. -/
theorem currentPassword_samples :
    (Parent.struct parentDeclared).FieldByName "UserID".toList
      = some (some ⟨"UserID".toList, Kind.Uint, 42⟩) ∧
    (Parent.struct parentPromoted).FieldByName "UserID".toList
      = some (some ⟨"UserID".toList, Kind.Uint, 42⟩) ∧
    (Parent.struct parentAmbiguous).FieldByName "UserID".toList = some none ∧
    (Parent.struct parentWithout).FieldByName "UserID".toList = some none ∧
    (Parent.struct parentBehindNil).FieldByName "UserID".toList = none ∧
    currentPassword (RegisterAppDependencies (some sampleChecker) Globals.initial)
        "secret".toList (Parent.struct parentBehindNil) = none := by
  decide

theorem checkError_isNone (toSnakeCase : Str → Str) (translate : FieldError → Str)
    (jsonString : Str → Str) (e : Option EngineError) :
    checkError toSnakeCase translate jsonString e = none ↔ e = none := by
  cases e with
  | none => simp [checkError]
  | some err => cases err <;> simp [checkError]

/-- C8: `Validate` and `VarValidate` return nil if and only if the engine
reports no error for the input (so every non-nil engine error gives a non-nil
error). -/
theorem validate_nil_iff {σ : Type} (structEngine : σ → Option EngineError)
    (varEngine : Str → Str → Option EngineError)
    (toSnakeCase : Str → Str) (translate : FieldError → Str) (jsonString : Str → Str)
    (s : σ) (value rule : Str) :
    (Validate structEngine toSnakeCase translate jsonString s = none
      ↔ structEngine s = none) ∧
    (VarValidate varEngine toSnakeCase translate jsonString value rule = none
      ↔ varEngine value rule = none) := by
  exact ⟨checkError_isNone _ _ _ _, checkError_isNone _ _ _ _⟩

theorem Init_done {DB : Type} (reg : Registrar) (db : DB) (g : Globals)
    (h : g.onceDone = true) :
    Init reg db g = ({ v := none, err := none, ranBody := false }, g) := by
  simp [Init, h]

theorem Init_sets_done {DB : Type} (reg : Registrar) (db : DB) (g : Globals) :
    (Init reg db g).2.onceDone = true := by
  unfold Init
  by_cases h : g.onceDone = true
  · simp [h]
  · by_cases hb : initBody reg = none <;> simp [h, hb]

theorem initCalls_done {DB : Type} (reg : Registrar) (dbs : List DB) (g : Globals)
    (h : g.onceDone = true) :
    initCalls reg dbs g
      = List.replicate dbs.length { v := none, err := none, ranBody := false } := by
  induction dbs generalizing g with
  | nil => simp [initCalls]
  | cons db dbs ih =>
    simp [initCalls, Init_done reg db g h, ih g h, List.replicate_succ]

/-- C9: in a sequence of `Init` calls from the start of the process, the
first call runs the initialisation body and every later call, with any
database handle, returns a nil `Validation` with a nil error and does not run
the body; from any package state, at most one call of a sequence runs it. -/
theorem Init_at_most_once {DB : Type} (reg : Registrar) (db : DB) (dbs : List DB)
    (g : Globals) :
    initCalls reg (db :: dbs) Globals.initial
      = (Init reg db Globals.initial).1
          :: List.replicate dbs.length { v := none, err := none, ranBody := false } ∧
    (Init reg db Globals.initial).1.ranBody = true ∧
    ((initCalls reg (db :: dbs) g).filter (fun r => r.ranBody)).length ≤ 1 := by
  refine ⟨?_, ?_, ?_⟩
  · simp [initCalls, initCalls_done reg dbs _ (Init_sets_done reg db Globals.initial)]
  · by_cases hb : initBody reg = none <;> simp [Init, Globals.initial, hb]
  · simp only [initCalls, initCalls_done reg dbs _ (Init_sets_done reg db g)]
    rw [List.filter_cons]
    have : (List.replicate dbs.length
        ({ v := none, err := none, ranBody := false } : InitResult DB)).filter
        (fun r => r.ranBody) = [] := by
      simp [List.filter_eq_nil_iff]
    split <;> simp [this]

theorem mapGet_mapSet (m : StrMap) (k k2 : Str) (v : List Str) :
    mapGet (mapSet m k v) k2 = if k = k2 then v else mapGet m k2 := by
  induction m with
  | nil => simp [mapSet, mapGet]
  | cons e rest ih =>
    obtain ⟨ek, ev⟩ := e
    by_cases h1 : ek = k
    · subst h1
      by_cases h2 : ek = k2 <;> simp [mapSet, mapGet, h2]
    · by_cases h2 : ek = k2
      · subst h2
        have h3 : ¬ k = ek := fun h => h1 h.symm
        simp [mapSet, mapGet, h1, h3]
      · simp [mapSet, mapGet, h1, h2, ih]

theorem mem_mapKeys_mapSet (m : StrMap) (k k2 : Str) (v : List Str) :
    k2 ∈ mapKeys (mapSet m k v) ↔ k2 ∈ mapKeys m ∨ k2 = k := by
  induction m with
  | nil => simp [mapSet, mapKeys]
  | cons e rest ih =>
    obtain ⟨ek, ev⟩ := e
    simp only [mapKeys] at ih
    by_cases h1 : ek = k
    · subst h1
      simp [mapSet, mapKeys]
      tauto
    · simp only [mapSet, h1, mapKeys, if_false, List.map_cons, List.mem_cons, ih]
      tauto

theorem nodup_mapKeys_mapSet (m : StrMap) (k : Str) (v : List Str)
    (h : (mapKeys m).Nodup) : (mapKeys (mapSet m k v)).Nodup := by
  induction m with
  | nil => simp [mapSet, mapKeys]
  | cons e rest ih =>
    obtain ⟨ek, ev⟩ := e
    by_cases h1 : ek = k
    · subst h1
      simpa [mapSet, mapKeys] using h
    · have hk := mem_mapKeys_mapSet rest k ek v
      simp only [mapKeys, List.map_cons, List.nodup_cons] at h ih hk ⊢
      simp only [mapSet, h1, if_false, List.map_cons, List.nodup_cons]
      refine ⟨?_, ih h.2⟩
      rw [hk]
      rintro (h3 | h3)
      · exact h.1 h3
      · exact h1 h3

theorem messageCount_mapSet (m : StrMap) (k : Str) (v : List Str) :
    messageCount (mapSet m k v) + (mapGet m k).length = messageCount m + v.length := by
  induction m with
  | nil => simp [mapSet, mapGet, messageCount]
  | cons e rest ih =>
    obtain ⟨ek, ev⟩ := e
    simp only [messageCount] at ih ⊢
    by_cases h1 : ek = k
    · simp [mapSet, mapGet, h1]
      omega
    · simp [mapSet, mapGet, h1]
      omega

theorem translateLoop_get (toSnakeCase : Str → Str) (translate : FieldError → Str)
    (errs : List FieldError) (m : StrMap) (k : Str) :
    mapGet (translateLoop toSnakeCase translate errs m) k
      = mapGet m k ++ (errs.filter (fun fe => toSnakeCase fe.field = k)).map translate := by
  induction errs generalizing m with
  | nil => simp [translateLoop]
  | cons fe errs ih =>
    simp only [translateLoop, ih, mapGet_mapSet]
    by_cases h : toSnakeCase fe.field = k
    · simp [h, List.filter_cons]
    · simp [h, List.filter_cons]

theorem translateLoop_keys (toSnakeCase : Str → Str) (translate : FieldError → Str)
    (errs : List FieldError) (m : StrMap) (k : Str) :
    k ∈ mapKeys (translateLoop toSnakeCase translate errs m)
      ↔ k ∈ mapKeys m ∨ ∃ fe ∈ errs, toSnakeCase fe.field = k := by
  induction errs generalizing m with
  | nil => simp [translateLoop]
  | cons fe errs ih =>
    simp only [translateLoop, ih, mem_mapKeys_mapSet, List.mem_cons, exists_eq_or_imp]
    constructor
    · rintro ((h | h) | h)
      · exact Or.inl h
      · exact Or.inr (Or.inl h.symm)
      · exact Or.inr (Or.inr h)
    · rintro (h | h | h)
      · exact Or.inl (Or.inl h)
      · exact Or.inl (Or.inr h.symm)
      · exact Or.inr h

theorem translateLoop_nodup (toSnakeCase : Str → Str) (translate : FieldError → Str)
    (errs : List FieldError) (m : StrMap) (h : (mapKeys m).Nodup) :
    (mapKeys (translateLoop toSnakeCase translate errs m)).Nodup := by
  induction errs generalizing m with
  | nil => simpa [translateLoop] using h
  | cons fe errs ih =>
    simp only [translateLoop]
    exact ih _ (nodup_mapKeys_mapSet m _ _ h)

theorem translateLoop_count (toSnakeCase : Str → Str) (translate : FieldError → Str)
    (errs : List FieldError) (m : StrMap) :
    messageCount (translateLoop toSnakeCase translate errs m)
      = messageCount m + errs.length := by
  induction errs generalizing m with
  | nil => simp [translateLoop]
  | cons fe errs ih =>
    simp only [translateLoop, ih]
    have := messageCount_mapSet m (toSnakeCase fe.field)
      (mapGet m (toSnakeCase fe.field) ++ [translate fe])
    simp at this
    simp
    omega

theorem jsonMarshal_ne_genericMessage (jsonString : Str → Str) (m : StrMap) :
    jsonMarshal jsonString m ≠ genericMessage := by
  intro h
  have h2 := congrArg List.head? h
  simp [jsonMarshal, genericMessage] at h2

/-- C7: for a non-nil error `e`, `checkError` returns the fixed text when `e`
is an `InvalidValidationError`, and otherwise the JSON encoding of the map the
loop builds, which differs from the fixed text; that map has no repeated key,
its keys are exactly the snake-cased names of the failed fields, each key holds
the translated messages of the failures with that snake-cased name in the
order reported, and its messages number as many as the failures. -/
theorem checkError_message (toSnakeCase : Str → Str) (translate : FieldError → Str)
    (jsonString : Str → Str) (e : EngineError) :
    (e = EngineError.InvalidValidationError →
      checkError toSnakeCase translate jsonString (some e) = some genericMessage) ∧
    (e ≠ EngineError.InvalidValidationError →
      checkError toSnakeCase translate jsonString (some e)
        = some (jsonMarshal jsonString
            (translateLoop toSnakeCase translate (asValidationErrors e) [])) ∧
      checkError toSnakeCase translate jsonString (some e) ≠ some genericMessage) ∧
    (mapKeys (translateLoop toSnakeCase translate (asValidationErrors e) [])).Nodup ∧
    (∀ k, k ∈ mapKeys (translateLoop toSnakeCase translate (asValidationErrors e) [])
      ↔ ∃ fe ∈ asValidationErrors e, toSnakeCase fe.field = k) ∧
    (∀ k, mapGet (translateLoop toSnakeCase translate (asValidationErrors e) []) k
      = ((asValidationErrors e).filter (fun fe => toSnakeCase fe.field = k)).map translate) ∧
    messageCount (translateLoop toSnakeCase translate (asValidationErrors e) [])
      = (asValidationErrors e).length := by
  refine ⟨?_, ?_, ?_, ?_, ?_, ?_⟩
  · intro h
    simp [h, checkError]
  · intro h
    have hmsg : checkError toSnakeCase translate jsonString (some e)
        = some (jsonMarshal jsonString
            (translateLoop toSnakeCase translate (asValidationErrors e) [])) := by
      cases e with
      | InvalidValidationError => exact absurd rfl h
      | ValidationErrors errs => simp [checkError]
      | other msg => simp [checkError]
    refine ⟨hmsg, ?_⟩
    rw [hmsg]
    intro h2
    exact jsonMarshal_ne_genericMessage _ _ (Option.some.inj h2)
  · exact translateLoop_nodup _ _ _ _ (by simp [mapKeys])
  · intro k
    rw [translateLoop_keys]
    simp [mapKeys]
  · intro k
    simp [translateLoop_get, mapGet]
  · rw [translateLoop_count]
    simp [messageCount]

theorem ends_charClass (s : Str) (lo hi : Char) (pos j : Nat) :
    j ∈ (Regex.CharClass lo hi).ends s pos
      ↔ j = pos + 1 ∧ ∃ d, s[pos]? = some d ∧ inClass lo hi d := by
  unfold Regex.ends inClass
  cases h : s[pos]? with
  | none => simp
  | some d =>
    by_cases hd : lo.val ≤ d.val ∧ d.val ≤ hi.val
    · simp [hd]
    · simp only [hd, if_false, List.not_mem_nil, false_iff, not_and, not_exists]
      intro _ x hx
      cases hx
      exact fun a b => hd ⟨a, b⟩

theorem ends_literal (s : Str) (c : Char) (pos j : Nat) :
    j ∈ (Regex.Literal c).ends s pos ↔ j = pos + 1 ∧ s[pos]? = some c := by
  unfold Regex.ends
  cases h : s[pos]? with
  | none => simp
  | some d =>
    by_cases hd : d = c
    · simp [hd]
    · simp [hd]

theorem drop_take_succ (s : Str) (p n : Nat) (d : Char) (h : s[p]? = some d) :
    (s.drop p).take (n + 1) = d :: (s.drop (p + 1)).take n := by
  have hlt : p < s.length := by
    rcases Nat.lt_or_ge p s.length with h1 | h1
    · exact h1
    · rw [List.getElem?_eq_none h1] at h; cases h
  have hd : s[p] = d := by
    rw [List.getElem?_eq_getElem hlt] at h
    exact Option.some.inj h
  rw [List.drop_eq_getElem_cons hlt, List.take_succ_cons, hd]

theorem iterate_charClass (s : Str) (lo hi : Char) (n : Nat) (starts : List Nat) (j : Nat) :
    j ∈ Nat.iterate
          (fun starts => starts.flatMap (fun mid => (Regex.CharClass lo hi).ends s mid))
          n starts
      ↔ ∃ p ∈ starts, j = p + n ∧ ((s.drop p).take n).length = n
          ∧ ∀ d ∈ (s.drop p).take n, inClass lo hi d := by
  induction n generalizing starts with
  | zero => simp
  | succ n ih =>
    rw [Function.iterate_succ_apply, ih]
    constructor
    · rintro ⟨p, hp, hj, hlen, hall⟩
      rw [List.mem_flatMap] at hp
      obtain ⟨q, hq, hpq⟩ := hp
      rw [ends_charClass] at hpq
      obtain ⟨hp1, d, hd, hcls⟩ := hpq
      subst hp1
      refine ⟨q, hq, by omega, ?_, ?_⟩
      · rw [drop_take_succ s q n d hd, List.length_cons, hlen]
      · rw [drop_take_succ s q n d hd]
        intro x hx
        rcases List.mem_cons.mp hx with h | h
        · exact h ▸ hcls
        · exact hall x h
    · rintro ⟨p, hp, hj, hlen, hall⟩
      have hlt : p < s.length := by
        by_contra hge
        rw [List.drop_eq_nil_of_le (by omega)] at hlen
        simp at hlen
      have hd : s[p]? = some s[p] := List.getElem?_eq_getElem hlt
      rw [drop_take_succ s p n _ hd] at hlen hall
      refine ⟨p + 1, ?_, by omega, by simpa using hlen, fun x hx => hall x (List.mem_cons_of_mem _ hx)⟩
      rw [List.mem_flatMap]
      exact ⟨p, hp, (ends_charClass s lo hi p (p + 1)).mpr
        ⟨rfl, _, hd, hall _ (List.mem_cons_self _ _)⟩⟩

theorem ends_repeat_charClass (s : Str) (lo hi : Char) (n pos j : Nat) :
    j ∈ (Regex.Repeat (Regex.CharClass lo hi) n).ends s pos
      ↔ j = pos + n ∧ ((s.drop pos).take n).length = n
          ∧ ∀ d ∈ (s.drop pos).take n, inClass lo hi d := by
  have h := iterate_charClass s lo hi n [pos] j
  simp only [List.mem_singleton, exists_eq_left] at h
  rw [← h]
  conv_lhs => unfold Regex.ends

theorem ends_concat (s : Str) (r₁ r₂ : Regex) (pos j : Nat) :
    j ∈ (Regex.Concat r₁ r₂).ends s pos ↔ ∃ mid, mid ∈ r₁.ends s pos ∧ j ∈ r₂.ends s mid := by
  conv_lhs => unfold Regex.ends
  rw [List.mem_flatMap]

theorem ends_beginText (s : Str) (pos j : Nat) :
    j ∈ Regex.BeginText.ends s pos ↔ pos = 0 ∧ j = 0 := by
  unfold Regex.ends
  by_cases h : pos = 0 <;> simp [h]

theorem ends_endText (s : Str) (pos j : Nat) :
    j ∈ Regex.EndText.ends s pos ↔ pos = s.length ∧ j = pos := by
  unfold Regex.ends
  by_cases h : pos = s.length <;> simp [h]

theorem ends_mobileRegex (s : Str) (start j : Nat) :
    j ∈ mobileRegex.ends s start
      ↔ start = 0 ∧ j = 11 ∧ s.length = 11 ∧ s[0]? = some '0' ∧ s[1]? = some '9'
          ∧ ((s.drop 2).take 9).length = 9
          ∧ ∀ d ∈ (s.drop 2).take 9, inClass '0' '9' d := by
  simp only [mobileRegex, ends_concat, ends_beginText, ends_endText, ends_literal,
    ends_repeat_charClass]
  constructor
  · rintro ⟨a, ⟨hs, rfl⟩, b, ⟨rfl, h0⟩, c, ⟨rfl, h1⟩, d, ⟨rfl, hl, hall⟩, hlen, rfl⟩
    exact ⟨hs, rfl, hlen.symm, h0, h1, hl, hall⟩
  · rintro ⟨rfl, rfl, hlen, h0, h1, hl, hall⟩
    exact ⟨0, ⟨rfl, rfl⟩, 1, ⟨rfl, h0⟩, 2, ⟨rfl, h1⟩, 11, ⟨rfl, hl, hall⟩, hlen.symm, rfl⟩

theorem isDigit_iff_inClass (d : Char) : d.isDigit = true ↔ inClass '0' '9' d := by
  simp only [Char.isDigit, inClass, Bool.and_eq_true, decide_eq_true_eq, ge_iff_le]
  rfl

theorem mobile_iff_ends (s : Str) :
    mobile s = true ↔ ∃ start j, j ∈ mobileRegex.ends s start := by
  simp only [mobile, Regex.MatchString, List.any_eq_true, List.mem_range, Bool.not_eq_true',
    List.isEmpty_eq_false]
  constructor
  · rintro ⟨start, _, hne⟩
    obtain ⟨j, hj⟩ := List.exists_mem_of_ne_nil _ hne
    exact ⟨start, j, hj⟩
  · rintro ⟨start, j, hj⟩
    have h0 := ((ends_mobileRegex s start j).mp hj).1
    exact ⟨start, by omega, List.ne_nil_of_mem hj⟩

/-- C1: the mobile rule callback returns true if and only if the string has
exactly 11 runes, starts with "09" and every rune is an ASCII digit; one
string of the right shape is accepted, and strings of 10 or 12 digits, with a
trailing newline, with non-ASCII (Persian) digits, not starting with "09", or
with the pattern only as a suffix are rejected. -/
theorem mobile_iff (s : Str) :
    (mobile s = true
      ↔ s.length = 11 ∧ s.take 2 = ['0', '9'] ∧ ∀ c ∈ s, c.isDigit = true) ∧
    mobile "09123456789".toList = true ∧
    mobile "0912345678".toList = false ∧
    mobile "091234567890".toList = false ∧
    mobile "09123456789\n".toList = false ∧
    mobile "۰۹۱۲۳۴۵۶۷۸۹".toList = false ∧
    mobile "19123456789".toList = false ∧
    mobile "x09123456789".toList = false := by
  have main : ∀ t : Str, mobile t = true
      ↔ t.length = 11 ∧ t.take 2 = ['0', '9'] ∧ ∀ c ∈ t, c.isDigit = true := by
    intro t
    rw [mobile_iff_ends]
    simp only [ends_mobileRegex, ← isDigit_iff_inClass]
    constructor
    · rintro ⟨_, _, _, _, hlen, h0, h1, _, hall⟩
      refine ⟨hlen, ?_, ?_⟩
      · match t, hlen, h0, h1 with
        | [c0, c1, _, _, _, _, _, _, _, _, _], _, h0, h1 =>
          simp at h0 h1
          simp [h0, h1]
      · match t, hlen, h0, h1, hall with
        | [c0, c1, _, _, _, _, _, _, _, _, _], _, h0, h1, hall =>
          simp at h0 h1 hall
          subst h0 h1
          simpa using hall
    · rintro ⟨hlen, htake, hall⟩
      refine ⟨0, 11, rfl, rfl, hlen, ?_⟩
      match t, hlen, htake, hall with
      | [c0, c1, _, _, _, _, _, _, _, _, _], _, htake, hall =>
        simp at htake hall
        simp [htake.1, htake.2, hall]
  refine ⟨main s, ?_, ?_, ?_, ?_, ?_, ?_, ?_⟩
  · decide
  · decide
  · decide
  · decide
  · decide
  · decide
  · decide

theorem checkError_message_witness :
    checkError sampleSnakeCase sampleTranslate sampleJsonString
        (some EngineError.InvalidValidationError) = some genericMessage ∧
    (checkError sampleSnakeCase sampleTranslate sampleJsonString
        (some (EngineError.ValidationErrors sampleFailures))
      = some (jsonMarshal sampleJsonString
          (translateLoop sampleSnakeCase sampleTranslate
            (asValidationErrors (EngineError.ValidationErrors sampleFailures)) [])) ∧
     checkError sampleSnakeCase sampleTranslate sampleJsonString
        (some (EngineError.ValidationErrors sampleFailures)) ≠ some genericMessage) ∧
    translateLoop sampleSnakeCase sampleTranslate sampleFailures []
      = [("user_id".toList, ["UserID required".toList, "UserID min".toList]),
         ("email".toList, ["Email email".toList])] ∧
    checkError sampleSnakeCase sampleTranslate sampleJsonString
        (some (EngineError.ValidationErrors sampleFailures))
      = some ("\x7b\x22email\x22:[\x22Email email\x22],".toList
          ++ "\x22user_id\x22:[\x22UserID required\x22,\x22UserID min\x22]\x7d".toList) :=
  ⟨(checkError_message sampleSnakeCase sampleTranslate sampleJsonString
      EngineError.InvalidValidationError).1 rfl,
   (checkError_message sampleSnakeCase sampleTranslate sampleJsonString
      (EngineError.ValidationErrors sampleFailures)).2.1 (by decide),
   by decide, by decide⟩

end GoValidator
